import Mathlib

/-!
Verification of the name-matching pipeline of `name_validator.py`.

The development shallowly embeds:
- `normalize_name` (src/name_validator.py, lines 84-89): transliterate with
  `unidecode`, replace every character outside `[A-Za-z\s]` by a space,
  collapse whitespace runs, strip, upper-case;
- `PdfNameExtractor.extract_names` (lines 105-137): per-page OCR results,
  per-line normalization, the two-token filter, and the error semantics;
- `ExcelNameValidator.validate` (lines 148-175): the pandas column
  operations adding the boolean `Existe en SUA` column;
- `parse_args`/`main` (lines 181-236): extension checks and exit codes.

Strings are modelled through their lists of `Char`; Python regex classes
`[A-Za-z]` and `\s` are modelled on ASCII; machine-level Unicode beyond the
Latin accented letters handled by the transliteration table is outside the
model.  Python sets are modelled as lists, observed only through membership.
-/

/-- Model of the regex class `[A-Za-z]` used in `re.sub(r"[^A-Za-z\s]", " ", _)`. -/
def isAsciiLetter (c : Char) : Bool :=
  decide ((65 ≤ c.toNat ∧ c.toNat ≤ 90) ∨ (97 ≤ c.toNat ∧ c.toNat ≤ 122))

/-- Model of the regex class `\s` (ASCII whitespace: space, \t, \n, \x0b, \x0c, \r). -/
def pyIsSpace (c : Char) : Bool :=
  decide (c.toNat = 32 ∨ (9 ≤ c.toNat ∧ c.toNat ≤ 13))

/-- Modelled from the spec: the external `unidecode` transliteration, restricted
to the Latin accented letters relevant to Spanish rosters; it returns the
plain-ASCII base letter of an accented letter and `none` on anything else. -/
def accentBase (c : Char) : Option Char :=
  match c with
  | 'á' | 'à' | 'â' | 'ä' | 'ã' => some 'a'
  | 'é' | 'è' | 'ê' | 'ë' => some 'e'
  | 'í' | 'ì' | 'î' | 'ï' => some 'i'
  | 'ó' | 'ò' | 'ô' | 'ö' | 'õ' => some 'o'
  | 'ú' | 'ù' | 'û' | 'ü' => some 'u'
  | 'ñ' => some 'n'
  | 'ç' => some 'c'
  | 'Á' | 'À' | 'Â' | 'Ä' | 'Ã' => some 'A'
  | 'É' | 'È' | 'Ê' | 'Ë' => some 'E'
  | 'Í' | 'Ì' | 'Î' | 'Ï' => some 'I'
  | 'Ó' | 'Ò' | 'Ô' | 'Ö' | 'Õ' => some 'O'
  | 'Ú' | 'Ù' | 'Û' | 'Ü' => some 'U'
  | 'Ñ' => some 'N'
  | 'Ç' => some 'C'
  | _ => none

/-- Transliteration of one character: identity on ASCII (as `unidecode` is),
accent stripping on the modelled accented letters. -/
def translitChar (c : Char) : Char :=
  if c.toNat < 128 then c else (accentBase c).getD c

/-- Model of Python `str.isalpha` on the modelled character set: ASCII letters
and the accented letters of the transliteration table. -/
def pyIsAlpha (c : Char) : Bool :=
  isAsciiLetter c || (accentBase c).isSome

/-- One character of `re.sub(r"[^A-Za-z\s]", " ", _)`: characters outside
`[A-Za-z\s]` become a single space, the rest are kept. -/
def cleanChar (c : Char) : Char :=
  if isAsciiLetter c || pyIsSpace c then c else ' '

/-- Model of `re.sub(r"\s+", " ", _)`: every maximal run of `\s` characters
becomes one single space character. -/
def collapseWS : List Char → List Char
  | [] => []
  | [c] => if pyIsSpace c then [' '] else [c]
  | c :: d :: rest =>
    if pyIsSpace c && pyIsSpace d then collapseWS (d :: rest)
    else (if pyIsSpace c then ' ' else c) :: collapseWS (d :: rest)

/-- Left part of Python `str.strip`: drop leading whitespace. -/
def lstripWS (l : List Char) : List Char := l.dropWhile pyIsSpace

/-- Right part of Python `str.strip`: drop trailing whitespace. -/
def rstripWS (l : List Char) : List Char := (l.reverse.dropWhile pyIsSpace).reverse

/-- Model of Python `str.strip` (no argument): drop whitespace at both ends. -/
def stripWS (l : List Char) : List Char := lstripWS (rstripWS l)

/-- Model of Python `str.upper` on one ASCII character. -/
def pyToUpper (c : Char) : Char :=
  if 97 ≤ c.toNat ∧ c.toNat ≤ 122 then Char.ofNat (c.toNat - 32) else c

/-- Model of Python `str.lower` on one ASCII character. -/
def pyToLower (c : Char) : Char :=
  if 65 ≤ c.toNat ∧ c.toNat ≤ 90 then Char.ofNat (c.toNat + 32) else c

/-- The body of `normalize_name` (src/name_validator.py lines 84-89) on a list
of characters: transliterate, clean `[^A-Za-z\s]` to spaces, collapse
whitespace runs, strip, upper-case. -/
def normList (l : List Char) : List Char :=
  (stripWS (collapseWS ((l.map translitChar).map cleanChar))).map pyToUpper

/-- `normalize_name` of src/name_validator.py (lines 84-89). -/
def normalize_name (s : String) : String :=
  String.mk (normList s.data)

/-- Helper of the model of Python `str.split()` (no argument): accumulate the
current word (reversed) while scanning. -/
def wordsAux : List Char → List Char → List (List Char)
  | [], acc => if acc.isEmpty then [] else [acc.reverse]
  | c :: rest, acc =>
    if pyIsSpace c then
      if acc.isEmpty then wordsAux rest [] else acc.reverse :: wordsAux rest []
    else wordsAux rest (c :: acc)

/-- Model of Python `str.split()` with no argument: the maximal runs of
non-whitespace characters. -/
def pyWords (l : List Char) : List (List Char) := wordsAux l []

/-- Number of whitespace-separated tokens of a string, i.e. `len(s.split())`. -/
def tokenCount (s : String) : Nat := (pyWords s.data).length

/-- Helper of the model of Python `str.splitlines`: split at newline characters. -/
def splitLinesAux : List Char → List Char → List (List Char)
  | [], acc => [acc.reverse]
  | c :: rest, acc =>
    if c = '\n' then acc.reverse :: splitLinesAux rest []
    else splitLinesAux rest (c :: acc)

/-- Model of `text.splitlines()` on newline-separated OCR text. -/
def pySplitlines (s : String) : List String :=
  (splitLinesAux s.data []).map String.mk

/-- Model of Python `line.strip()` used as a truthiness test plus the
`any(c.isalpha() for c in line)` guard of `extract_names` (line 131): a line
is kept when it has non-whitespace content and at least one alphabetic
character. -/
def lineKept (s : String) : Bool :=
  !(stripWS s.data).isEmpty && s.data.any pyIsAlpha

/-- The OCR engine can fail on one page (`pytesseract.TesseractError`). -/
inductive PageOcr where
  | ok (text : String)
  | failed

/-- Outcome of `convert_from_path` (the external rasterizer): the list of
per-page OCR outcomes, or one of the two modelled exceptions. -/
inductive ConvOutcome where
  | pages (ps : List PageOcr)
  | pdfInfoNotInstalled
  | otherFailure

/-- The reasons `PdfNameExtractor.extract_names` raises `PdfExtractionError`
(src/name_validator.py lines 109-118). -/
inductive PdfExtractionError where
  | pdfNotFound
  | popplerMissing
  | convertFailed
deriving DecidableEq

/-- Names contributed by one OCR page text (src/name_validator.py lines
128-133): normalize every kept line, keep normalizations with at least two
whitespace-separated tokens. -/
def pageNames (text : String) : List String :=
  (((pySplitlines text).filter lineKept).map normalize_name).filter
    (fun n => decide (2 ≤ tokenCount n))

/-- The page loop of `extract_names` (lines 120-134): a failed page is
skipped (`continue`), an ok page contributes its `pageNames`.  The Python
`set` is modelled as a list observed through membership. -/
def collectNames : List PageOcr → List String
  | [] => []
  | PageOcr.failed :: rest => collectNames rest
  | PageOcr.ok text :: rest => pageNames text ++ collectNames rest

/-- `PdfNameExtractor.extract_names` (src/name_validator.py lines 105-137):
fatal when the PDF file is missing or rasterization fails, otherwise the
accumulation over all pages, skipping failed ones. -/
def extract_names (pdfExists : Bool) (conv : ConvOutcome) :
    Except PdfExtractionError (List String) :=
  if !pdfExists then Except.error PdfExtractionError.pdfNotFound
  else
    match conv with
    | ConvOutcome.pdfInfoNotInstalled => Except.error PdfExtractionError.popplerMissing
    | ConvOutcome.otherFailure => Except.error PdfExtractionError.convertFailed
    | ConvOutcome.pages ps => Except.ok (collectNames ps)

/-- One spreadsheet cell, as relevant to `df[...].astype(str)`: a string, a
missing value (pandas `NaN`), an integer, or a boolean. -/
inductive Cell where
  | str (s : String)
  | nan
  | int (n : Int)
  | bool (b : Bool)
deriving DecidableEq

/-- Model of pandas `.astype(str)` on one cell: Python `str()` of the value;
a missing value (float `nan`) prints as `"nan"`. -/
def pyStr : Cell → String
  | Cell.str s => s
  | Cell.nan => "nan"
  | Cell.int n => toString n
  | Cell.bool b => if b then "True" else "False"

/-- Membership test `lambda n: n in pdf_names` (line 164): the cell value is
compared against the set of extracted (string) names; a non-string value is
never equal to a string. -/
def cellMem (c : Cell) (names : List String) : Bool :=
  match c with
  | Cell.str s => decide (s ∈ names)
  | _ => false

/-- A pandas DataFrame: ordered column labels and rows of cells, one cell per
column. -/
structure DataFrame where
  columns : List String
  rows : List (List Cell)
deriving DecidableEq

/-- A DataFrame is aligned when every row has one cell per column. -/
def DataFrame.Aligned (df : DataFrame) : Prop :=
  ∀ r ∈ df.rows, r.length = df.columns.length

instance (df : DataFrame) : Decidable df.Aligned :=
  inferInstanceAs (Decidable (∀ r ∈ df.rows, r.length = df.columns.length))

/-- Index of the first column with the given label, as pandas label lookup
selects it. -/
def colIdx? (name : String) : List String → Option Nat
  | [] => none
  | c :: cs => if c = name then some 0 else (colIdx? name cs).map (· + 1)

/-- Model of the pandas assignment `df[name] = df.apply(f, axis=1)`: when the
label exists its column is overwritten, otherwise a new column is appended on
the right; the new cell of each row is computed from that row. -/
def setColumnF (df : DataFrame) (name : String) (f : List Cell → Cell) : DataFrame :=
  match colIdx? name df.columns with
  | some i => { columns := df.columns, rows := df.rows.map (fun r => r.set i (f r)) }
  | none => { columns := df.columns ++ [name], rows := df.rows.map (fun r => r ++ [f r]) }

/-- Model of `df.drop(columns=name)` for a label that occurs in the frame. -/
def dropColumn (df : DataFrame) (name : String) : DataFrame :=
  match colIdx? name df.columns with
  | some i => { columns := df.columns.eraseIdx i, rows := df.rows.map (fun r => r.eraseIdx i) }
  | none => df

/-- The fixed name column of the roster (src/name_validator.py line 69). -/
def NAME_COLUMN : String := "Nombre Completo"

/-- Index of the name column used by `df[NAME_COLUMN]`. -/
def nameIdx (df : DataFrame) : Nat := (colIdx? NAME_COLUMN df.columns).getD 0

/-- The name cell of a row of `df`. -/
def nameCell (df : DataFrame) (r : List Cell) : Cell := r.getD (nameIdx df) Cell.nan

/-- The error raised by `ExcelNameValidator.validate` when the name column is
missing (lines 158-161); it carries the columns actually present, which the
`KeyError` message lists. -/
inductive ValidateError where
  | missingColumn (present : List String)
deriving DecidableEq

/-- The DataFrame transformation of `ExcelNameValidator.validate`
(src/name_validator.py lines 158-165): check the name column, add the
normalized helper column, add the membership column computed from it, drop
the helper column. -/
def validate (pdf_names : List String) (df : DataFrame) :
    Except ValidateError DataFrame :=
  if NAME_COLUMN ∈ df.columns then
    let df1 := setColumnF df "_NombreNormalizado"
      (fun r => Cell.str (normalize_name (pyStr (nameCell df r))))
    let df2 := setColumnF df1 "Existe en SUA"
      (fun r => Cell.bool
        (cellMem (r.getD ((colIdx? "_NombreNormalizado" df1.columns).getD 0) Cell.nan)
          pdf_names))
    Except.ok (dropColumn df2 "_NombreNormalizado")
  else Except.error (ValidateError.missingColumn df.columns)


/-- The command line accepted by `parse_args` (src/name_validator.py lines
181-192): two positional file names and the optional flags, including the
accepted `--pages` option. -/
structure Args where
  pdf : String
  excel : String
  debug : Bool
  tesseract_cmd : Option String
  dpi : Nat
  pages : Option String
deriving DecidableEq

/-- Everything `main` observes from the outside world: existence of the two
input files, the rasterizer/OCR outcome, whether `read_excel` succeeds and
on what frame, and whether `to_excel` succeeds. -/
structure World where
  pdfExists : Bool
  conv : ConvOutcome
  excelExists : Bool
  excelRead : Option DataFrame
  writeOk : Bool

/-- Case analysis of `str.lower().endswith(suffix)` for the extension checks
of `main` (lines 205-211). -/
def lowerEndsWith (s suffix : String) : Bool :=
  decide (((s.data.map pyToLower).reverse.take suffix.data.length) = suffix.data.reverse)

/-- Result of one run of `main` (src/name_validator.py lines 198-236): the
process exit code and the written output frame, when any.  `sys.exit(1)` is
taken on a bad extension and on every `PdfExtractionError`,
`FileNotFoundError` or `KeyError`; `sys.exit(2)` on any other exception;
falling through to the final log line exits with 0. -/
def mainRun (args : Args) (w : World) : Nat × Option DataFrame :=
  if !(lowerEndsWith args.pdf ".pdf") then (1, none)
  else if !(lowerEndsWith args.excel ".xlsx") then (1, none)
  else
    match extract_names w.pdfExists w.conv with
    | Except.error _ => (1, none)
    | Except.ok names =>
      if !w.excelExists then (1, none)
      else
        match w.excelRead with
        | none => (2, none)
        | some df =>
          match validate names df with
          | Except.error _ => (1, none)
          | Except.ok out => if w.writeOk then (0, some out) else (2, none)

/-- Characters of a normalized string: upper-case ASCII letters and the
single space. -/
def isNormChar (c : Char) : Prop :=
  (65 ≤ c.toNat ∧ c.toNat ≤ 90) ∨ c = ' '

/-- Adjacent characters are never both whitespace. -/
def NoTwoSpaces (a b : Char) : Prop :=
  ¬(pyIsSpace a = true ∧ pyIsSpace b = true)

theorem toNat_space : (' ' : Char).toNat = 32 := rfl

theorem pyToUpper_toNat_of_lower {c : Char} (h1 : 97 ≤ c.toNat) (h2 : c.toNat ≤ 122) :
    (pyToUpper c).toNat = c.toNat - 32 := by
  unfold pyToUpper
  rw [if_pos ⟨h1, h2⟩]
  have hv : Nat.isValidChar (c.toNat - 32) := Or.inl (by omega)
  unfold Char.ofNat
  rw [dif_pos hv]
  rfl

theorem pyToUpper_eq_self {c : Char} (h : ¬(97 ≤ c.toNat ∧ c.toNat ≤ 122)) :
    pyToUpper c = c := if_neg h

theorem pyIsSpace_pyToUpper (c : Char) : pyIsSpace (pyToUpper c) = pyIsSpace c := by
  by_cases h : 97 ≤ c.toNat ∧ c.toNat ≤ 122
  · have ht := pyToUpper_toNat_of_lower h.1 h.2
    simp only [pyIsSpace]
    rw [ht]
    simp only [decide_eq_decide]
    omega
  · rw [pyToUpper_eq_self h]

theorem isNormChar_space : isNormChar ' ' := Or.inr rfl

theorem isNormChar.not_lower {c : Char} (h : isNormChar c) :
    ¬(97 ≤ c.toNat ∧ c.toNat ≤ 122) := by
  rcases h with h | h
  · omega
  · subst h
    rw [toNat_space]
    omega

theorem isNormChar.pyToUpper_eq {c : Char} (h : isNormChar c) : pyToUpper c = c :=
  pyToUpper_eq_self h.not_lower

theorem isNormChar.toNat_lt {c : Char} (h : isNormChar c) : c.toNat < 128 := by
  rcases h with h | h
  · omega
  · subst h
    rw [toNat_space]
    omega

theorem isNormChar.letter_or_space {c : Char} (h : isNormChar c) :
    (isAsciiLetter c || pyIsSpace c) = true := by
  rcases h with h | h
  · simp only [isAsciiLetter, Bool.or_eq_true, decide_eq_true_eq]
    exact Or.inl (Or.inl h)
  · subst h
    decide

theorem isNormChar.space_eq {c : Char} (h : isNormChar c) (hs : pyIsSpace c = true) :
    c = ' ' := by
  rcases h with h | h
  · simp only [pyIsSpace, decide_eq_true_eq] at hs
    omega
  · exact h

theorem isNormChar_pyToUpper {c : Char}
    (h : (isAsciiLetter c || pyIsSpace c) = true) (hsp : pyIsSpace c = true → c = ' ') :
    isNormChar (pyToUpper c) := by
  rcases Bool.or_eq_true _ _ |>.mp h with hl | hs
  · simp only [isAsciiLetter, decide_eq_true_eq] at hl
    rcases hl with hu | hlow
    · exact Or.inl (by rw [pyToUpper_eq_self (by omega)]; exact hu)
    · exact Or.inl (by rw [pyToUpper_toNat_of_lower hlow.1 hlow.2]; omega)
  · have := hsp hs
    subst this
    exact Or.inr (by rw [pyToUpper_eq_self (by rw [toNat_space]; omega)])

theorem translitChar_eq_self_of_lt {c : Char} (h : c.toNat < 128) :
    translitChar c = c := if_pos h

theorem isAsciiLetter_false_of_ge {c : Char} (h : 128 ≤ c.toNat) :
    isAsciiLetter c = false := by
  simp only [isAsciiLetter, decide_eq_false_iff_not]
  omega

theorem translitChar_not_letter {c : Char} (h : pyIsAlpha c = false) :
    isAsciiLetter (translitChar c) = false := by
  simp only [pyIsAlpha, Bool.or_eq_false_iff] at h
  by_cases hlt : c.toNat < 128
  · rw [translitChar_eq_self_of_lt hlt]
    exact h.1
  · unfold translitChar
    rw [if_neg hlt]
    have hnone : accentBase c = none := by
      rcases hv : accentBase c with _ | v
      · rfl
      · rw [hv] at h
        simp at h
    rw [hnone, Option.getD_none]
    exact isAsciiLetter_false_of_ge (by omega)

theorem cleanChar_class (c : Char) :
    (isAsciiLetter (cleanChar c) || pyIsSpace (cleanChar c)) = true := by
  unfold cleanChar
  by_cases h : (isAsciiLetter c || pyIsSpace c) = true
  · rw [if_pos h]
    exact h
  · rw [if_neg h]
    decide

theorem cleanChar_space_of_not_letter {c : Char} (h : isAsciiLetter c = false) :
    pyIsSpace (cleanChar c) = true := by
  unfold cleanChar
  by_cases hs : pyIsSpace c = true
  · rw [if_pos (by rw [h, hs]; rfl)]
    exact hs
  · rw [if_neg (by rw [h]; simpa using hs)]
    decide

theorem mem_collapseWS : ∀ (m : List Char) (c : Char), c ∈ collapseWS m →
    c = ' ' ∨ (c ∈ m ∧ pyIsSpace c = false)
  | [], c, h => by simp [collapseWS] at h
  | [d], c, h => by
    by_cases hs : pyIsSpace d = true
    · simp only [collapseWS, hs, if_pos, List.mem_singleton] at h
      exact Or.inl h
    · simp only [collapseWS, if_neg hs, List.mem_singleton] at h
      subst h
      exact Or.inr ⟨List.mem_singleton_self c, Bool.eq_false_iff.mpr hs⟩
  | d :: e :: rest, c, h => by
    by_cases hde : (pyIsSpace d && pyIsSpace e) = true
    · rw [collapseWS, if_pos hde] at h
      rcases mem_collapseWS (e :: rest) c h with h1 | ⟨h2, h3⟩
      · exact Or.inl h1
      · exact Or.inr ⟨List.mem_cons_of_mem d h2, h3⟩
    · rw [collapseWS, if_neg hde] at h
      rcases List.mem_cons.mp h with h1 | h1
      · by_cases hd : pyIsSpace d = true
        · rw [if_pos hd] at h1
          exact Or.inl h1
        · rw [if_neg hd] at h1
          subst h1
          exact Or.inr ⟨List.mem_cons_self c _, Bool.eq_false_iff.mpr hd⟩
      · rcases mem_collapseWS (e :: rest) c h1 with h2 | ⟨h3, h4⟩
        · exact Or.inl h2
        · exact Or.inr ⟨List.mem_cons_of_mem d h3, h4⟩

theorem collapseWS_head_space {d : Char} {rest : List Char} {x : Char}
    (h : (collapseWS (d :: rest)).head? = some x) (hx : pyIsSpace x = true) :
    pyIsSpace d = true := by
  cases rest with
  | nil =>
    by_cases hd : pyIsSpace d = true
    · exact hd
    · rw [collapseWS, if_neg hd] at h
      simp only [List.head?_cons, Option.some.injEq] at h
      subst h
      exact absurd hx (Bool.eq_false_iff.mpr hd ▸ by simp)
  | cons e rest' =>
    by_cases hde : (pyIsSpace d && pyIsSpace e) = true
    · exact (Bool.and_eq_true _ _ |>.mp hde).1
    · rw [collapseWS, if_neg hde] at h
      simp only [List.head?_cons, Option.some.injEq] at h
      by_cases hd : pyIsSpace d = true
      · exact hd
      · rw [if_neg hd] at h
        subst h
        exact absurd hx (by simp [hd])

theorem chain'_collapseWS : ∀ (m : List Char), List.Chain' NoTwoSpaces (collapseWS m)
  | [] => by simp [collapseWS]
  | [d] => by
    by_cases hd : pyIsSpace d = true
    · rw [collapseWS, if_pos hd]
      exact List.chain'_singleton ' '
    · rw [collapseWS, if_neg hd]
      exact List.chain'_singleton d
  | d :: e :: rest => by
    by_cases hde : (pyIsSpace d && pyIsSpace e) = true
    · rw [collapseWS, if_pos hde]
      exact chain'_collapseWS (e :: rest)
    · rw [collapseWS, if_neg hde]
      refine List.chain'_cons'.mpr ⟨?_, chain'_collapseWS (e :: rest)⟩
      intro y hy
      intro ⟨h1, h2⟩
      have he : pyIsSpace e = true :=
        collapseWS_head_space (by simpa using hy) h2
      by_cases hd : pyIsSpace d = true
      · exact hde (by rw [hd, he]; rfl)
      · rw [if_neg hd] at h1
        exact hd h1

theorem collapseWS_id : ∀ (m : List Char), List.Chain' NoTwoSpaces m →
    (∀ c ∈ m, pyIsSpace c = true → c = ' ') → collapseWS m = m
  | [], _, _ => rfl
  | [d], _, hsp => by
    by_cases hd : pyIsSpace d = true
    · rw [collapseWS, if_pos hd, hsp d (List.mem_singleton_self d) hd]
    · rw [collapseWS, if_neg hd]
  | d :: e :: rest, hch, hsp => by
    have hde : ¬((pyIsSpace d && pyIsSpace e) = true) := by
      intro hde
      exact (List.chain'_cons.mp hch).1 (Bool.and_eq_true _ _ |>.mp hde)
    rw [collapseWS, if_neg hde]
    have htail := collapseWS_id (e :: rest) (List.chain'_cons.mp hch).2
      (fun c hc hcs => hsp c (List.mem_cons_of_mem d hc) hcs)
    rw [htail]
    by_cases hd : pyIsSpace d = true
    · rw [if_pos hd, hsp d (List.mem_cons_self d _) hd]
    · rw [if_neg hd]

theorem collapseWS_all_space : ∀ (m : List Char), (∀ c ∈ m, pyIsSpace c = true) →
    collapseWS m = [] ∨ collapseWS m = [' ']
  | [], _ => Or.inl rfl
  | [d], hsp => by
    rw [collapseWS, if_pos (hsp d (List.mem_singleton_self d))]
    exact Or.inr rfl
  | d :: e :: rest, hsp => by
    rw [collapseWS, if_pos (by
      rw [hsp d (List.mem_cons_self d _), hsp e (List.mem_cons_of_mem d (List.mem_cons_self e _))]
      rfl)]
    exact collapseWS_all_space (e :: rest) (fun c hc => hsp c (List.mem_cons_of_mem d hc))

theorem head?_dropWhile_not (p : Char → Bool) : ∀ (l : List Char) (x : Char),
    (l.dropWhile p).head? = some x → p x = false
  | [], x, h => by simp at h
  | a :: t, x, h => by
    by_cases ha : p a = true
    · rw [List.dropWhile_cons_of_pos ha] at h
      exact head?_dropWhile_not p t x h
    · rw [List.dropWhile_cons_of_neg ha] at h
      simp only [List.head?_cons, Option.some.injEq] at h
      subst h
      exact Bool.eq_false_iff.mpr ha

theorem getLast?_cons_of_getLast? {α : Type} {a x : α} {t : List α}
    (h : t.getLast? = some x) : (a :: t).getLast? = some x := by
  cases t with
  | nil => simp at h
  | cons b t' => rw [List.getLast?_cons_cons]; exact h

theorem getLast?_dropWhile (p : Char → Bool) : ∀ (l : List Char) (x : Char),
    (l.dropWhile p).getLast? = some x → l.getLast? = some x
  | [], x, h => by simp at h
  | a :: t, x, h => by
    by_cases ha : p a = true
    · rw [List.dropWhile_cons_of_pos ha] at h
      exact getLast?_cons_of_getLast? (getLast?_dropWhile p t x h)
    · rw [List.dropWhile_cons_of_neg ha] at h
      exact h

theorem dropWhile_eq_self_of_head (p : Char → Bool) (l : List Char)
    (h : ∀ x, l.head? = some x → p x = false) : l.dropWhile p = l := by
  cases l with
  | nil => rfl
  | cons a t =>
    exact List.dropWhile_cons_of_neg (by simp [h a rfl])

theorem stripWS_head? {l : List Char} {x : Char} (h : (stripWS l).head? = some x) :
    pyIsSpace x = false :=
  head?_dropWhile_not pyIsSpace (rstripWS l) x h

theorem stripWS_getLast? {l : List Char} {x : Char} (h : (stripWS l).getLast? = some x) :
    pyIsSpace x = false := by
  have h1 : (rstripWS l).getLast? = some x :=
    getLast?_dropWhile pyIsSpace (rstripWS l) x h
  unfold rstripWS at h1
  rw [List.getLast?_reverse] at h1
  exact head?_dropWhile_not pyIsSpace l.reverse x h1

theorem mem_stripWS {l : List Char} {c : Char} (h : c ∈ stripWS l) : c ∈ l := by
  unfold stripWS lstripWS rstripWS at h
  have h1 : c ∈ (l.reverse.dropWhile pyIsSpace).reverse :=
    (List.dropWhile_sublist pyIsSpace).mem h
  rw [List.mem_reverse] at h1
  have h2 : c ∈ l.reverse := (List.dropWhile_sublist pyIsSpace).mem h1
  exact List.mem_reverse.mp h2

theorem stripWS_eq_self {l : List Char}
    (hh : ∀ x, l.head? = some x → pyIsSpace x = false)
    (hl : ∀ x, l.getLast? = some x → pyIsSpace x = false) : stripWS l = l := by
  unfold stripWS rstripWS lstripWS
  rw [dropWhile_eq_self_of_head pyIsSpace l.reverse
    (fun x hx => hl x (by rwa [List.head?_reverse] at hx))]
  rw [List.reverse_reverse]
  exact dropWhile_eq_self_of_head pyIsSpace l hh

theorem chain'_reverse_NoTwoSpaces {l : List Char}
    (h : List.Chain' NoTwoSpaces l) : List.Chain' NoTwoSpaces l.reverse := by
  rw [List.chain'_reverse]
  exact h.imp (fun a b hab => fun ⟨h1, h2⟩ => hab ⟨h2, h1⟩)

theorem chain'_dropWhile {R : Char → Char → Prop} (p : Char → Bool) :
    ∀ (l : List Char), List.Chain' R l → List.Chain' R (l.dropWhile p)
  | [], h => h
  | a :: t, h => by
    by_cases ha : p a = true
    · rw [List.dropWhile_cons_of_pos ha]
      exact chain'_dropWhile p t h.tail
    · rw [List.dropWhile_cons_of_neg ha]
      exact h

theorem chain'_stripWS {l : List Char} (h : List.Chain' NoTwoSpaces l) :
    List.Chain' NoTwoSpaces (stripWS l) := by
  unfold stripWS rstripWS lstripWS
  exact chain'_dropWhile pyIsSpace _
    (chain'_reverse_NoTwoSpaces (chain'_dropWhile pyIsSpace _ (chain'_reverse_NoTwoSpaces h)))

theorem map_id_on {α : Type} {f : α → α} : ∀ (l : List α), (∀ c ∈ l, f c = c) → l.map f = l
  | [], _ => rfl
  | a :: t, h => by
    rw [List.map_cons, h a (List.mem_cons_self a t),
      map_id_on t (fun c hc => h c (List.mem_cons_of_mem a hc))]

theorem normList_char_class {l : List Char} {c : Char} (h : c ∈ normList l) :
    isNormChar c := by
  unfold normList at h
  rw [List.mem_map] at h
  obtain ⟨c0, hc0, hup⟩ := h
  subst hup
  have hmem : c0 ∈ collapseWS ((l.map translitChar).map cleanChar) := mem_stripWS hc0
  rcases mem_collapseWS _ c0 hmem with h1 | ⟨h2, h3⟩
  · subst h1
    exact isNormChar_pyToUpper isNormChar_space.letter_or_space (fun _ => rfl)
  · rw [List.mem_map] at h2
    obtain ⟨y, _, hy⟩ := h2
    subst hy
    exact isNormChar_pyToUpper (cleanChar_class y) (fun hs => absurd hs (by rw [h3]; simp))

theorem normList_chain' (l : List Char) : List.Chain' NoTwoSpaces (normList l) := by
  unfold normList
  rw [List.chain'_map]
  have hstrip := chain'_stripWS (chain'_collapseWS ((l.map translitChar).map cleanChar))
  exact hstrip.imp (fun a b hab => fun ⟨h1, h2⟩ =>
    hab ⟨by rwa [pyIsSpace_pyToUpper] at h1, by rwa [pyIsSpace_pyToUpper] at h2⟩)

theorem normList_head? {l : List Char} {x : Char} (h : (normList l).head? = some x) :
    pyIsSpace x = false := by
  unfold normList at h
  rw [List.head?_map] at h
  rcases hh : (stripWS (collapseWS ((l.map translitChar).map cleanChar))).head? with _ | y
  · rw [hh] at h
    exact Option.noConfusion h
  · rw [hh] at h
    simp only [Option.map_some', Option.some.injEq] at h
    subst h
    rw [pyIsSpace_pyToUpper]
    exact stripWS_head? hh

theorem normList_getLast? {l : List Char} {x : Char} (h : (normList l).getLast? = some x) :
    pyIsSpace x = false := by
  unfold normList at h
  rw [List.getLast?_map] at h
  rcases hh : (stripWS (collapseWS ((l.map translitChar).map cleanChar))).getLast? with _ | y
  · rw [hh] at h
    exact Option.noConfusion h
  · rw [hh] at h
    simp only [Option.map_some', Option.some.injEq] at h
    subst h
    rw [pyIsSpace_pyToUpper]
    exact stripWS_getLast? hh

theorem normList_idem (l : List Char) : normList (normList l) = normList l := by
  have hclass : ∀ c ∈ normList l, isNormChar c := fun c hc => normList_char_class hc
  have hchain := normList_chain' l
  have hh : ∀ x, (normList l).head? = some x → pyIsSpace x = false :=
    fun x hx => normList_head? hx
  have hlast : ∀ x, (normList l).getLast? = some x → pyIsSpace x = false :=
    fun x hx => normList_getLast? hx
  generalize hr : normList l = r at hclass hchain hh hlast ⊢
  unfold normList
  rw [map_id_on r (fun c hc => translitChar_eq_self_of_lt (hclass c hc).toNat_lt)]
  rw [map_id_on r (fun c hc => by
    unfold cleanChar
    rw [if_pos (hclass c hc).letter_or_space])]
  rw [collapseWS_id r hchain (fun c hc hcs => (hclass c hc).space_eq hcs)]
  rw [stripWS_eq_self hh hlast]
  exact map_id_on r (fun c hc => (hclass c hc).pyToUpper_eq)

theorem normList_nil_of_no_alpha {l : List Char} (h : ∀ c ∈ l, pyIsAlpha c = false) :
    normList l = [] := by
  unfold normList
  have hsp : ∀ c ∈ (l.map translitChar).map cleanChar, pyIsSpace c = true := by
    intro c hc
    rw [List.map_map, List.mem_map] at hc
    obtain ⟨y, hy, hcy⟩ := hc
    subst hcy
    exact cleanChar_space_of_not_letter (translitChar_not_letter (h y hy))
  rcases collapseWS_all_space _ hsp with h1 | h1
  · rw [h1]
    rfl
  · rw [h1]
    rfl

theorem colIdx?_eq_none {name : String} : ∀ (cs : List String), name ∉ cs →
    colIdx? name cs = none
  | [], _ => rfl
  | c :: cs, h => by
    rw [colIdx?, if_neg (fun hc => h (by rw [← hc]; exact List.mem_cons_self c cs)),
      colIdx?_eq_none cs (fun hc => h (List.mem_cons_of_mem c hc))]
    rfl

theorem colIdx?_append_cons {name : String} : ∀ (cs : List String), name ∉ cs →
    ∀ (rest : List String), colIdx? name (cs ++ name :: rest) = some cs.length
  | [], _, rest => by
    rw [List.nil_append, colIdx?, if_pos rfl]
    rfl
  | c :: cs, h, rest => by
    rw [List.cons_append, colIdx?,
      if_neg (fun hc => h (by rw [← hc]; exact List.mem_cons_self c cs)),
      colIdx?_append_cons cs (fun hc => h (List.mem_cons_of_mem c hc)) rest]
    rfl

theorem getD_append_length {α : Type} (d a : α) : ∀ (r t : List α),
    (r ++ a :: t).getD r.length d = a
  | [], t => rfl
  | b :: r, t => by
    rw [List.cons_append, List.length_cons]
    exact getD_append_length d a r t

theorem eraseIdx_append_length {α : Type} (a : α) : ∀ (r t : List α),
    (r ++ a :: t).eraseIdx r.length = r ++ t
  | [], t => rfl
  | b :: r, t => by
    rw [List.cons_append, List.length_cons, List.eraseIdx_cons_succ,
      eraseIdx_append_length a r t]
    rfl

theorem validate_missing_column (names : List String) (df : DataFrame)
    (h : NAME_COLUMN ∉ df.columns) :
    validate names df = Except.error (ValidateError.missingColumn df.columns) := by
  unfold validate
  rw [if_neg h]

theorem validate_eq (pdf_names : List String) (df : DataFrame)
    (ha : df.Aligned)
    (hmem : NAME_COLUMN ∈ df.columns)
    (hnn : "_NombreNormalizado" ∉ df.columns)
    (hex : "Existe en SUA" ∉ df.columns) :
    validate pdf_names df = Except.ok
      { columns := df.columns ++ ["Existe en SUA"],
        rows := df.rows.map (fun r => r ++
          [Cell.bool (decide (normalize_name (pyStr (nameCell df r)) ∈ pdf_names))]) } := by
  have hnn1 : colIdx? "_NombreNormalizado" df.columns = none := colIdx?_eq_none df.columns hnn
  have hnn1b : colIdx? "_NombreNormalizado" (df.columns ++ ["_NombreNormalizado"]) =
      some df.columns.length := colIdx?_append_cons df.columns hnn []
  have hex1 : colIdx? "Existe en SUA" (df.columns ++ ["_NombreNormalizado"]) = none := by
    apply colIdx?_eq_none
    intro hc
    rcases List.mem_append.mp hc with h1 | h1
    · exact hex h1
    · rw [List.mem_singleton] at h1
      exact absurd h1 (by decide)
  have hnn2 : colIdx? "_NombreNormalizado"
      ((df.columns ++ ["_NombreNormalizado"]) ++ ["Existe en SUA"]) =
      some df.columns.length := by
    rw [List.append_assoc]
    exact colIdx?_append_cons df.columns hnn _
  unfold validate
  rw [if_pos hmem]
  simp only [setColumnF, dropColumn, hnn1, hnn1b, hex1, hnn2, Option.getD_some,
    List.map_map]
  congr 1
  congr 1
  · rw [List.append_assoc]
    exact eraseIdx_append_length _ df.columns _
  · apply List.map_congr_left
    intro r hr
    have hlen : r.length = df.columns.length := ha r hr
    simp only [Function.comp]
    rw [← hlen, getD_append_length]
    rw [List.append_assoc, List.cons_append, List.nil_append, eraseIdx_append_length]
    rfl

theorem mem_pageNames_token_bound {text : String} {n : String} (h : n ∈ pageNames text) :
    2 ≤ tokenCount n := by
  unfold pageNames at h
  have := (List.mem_filter.mp h).2
  exact of_decide_eq_true this

theorem mem_collectNames_token_bound : ∀ (ps : List PageOcr) (n : String),
    n ∈ collectNames ps → 2 ≤ tokenCount n
  | [], n, h => absurd h (by simp [collectNames])
  | PageOcr.failed :: rest, n, h => mem_collectNames_token_bound rest n h
  | PageOcr.ok text :: rest, n, h => by
    rw [collectNames] at h
    rcases List.mem_append.mp h with h1 | h1
    · exact mem_pageNames_token_bound h1
    · exact mem_collectNames_token_bound rest n h1

theorem collectNames_skip_failed : ∀ (pre post : List PageOcr),
    collectNames (pre ++ PageOcr.failed :: post) = collectNames (pre ++ post)
  | [], post => rfl
  | PageOcr.failed :: pre, post => collectNames_skip_failed pre post
  | PageOcr.ok text :: pre, post => by
    rw [List.cons_append, List.cons_append, collectNames, collectNames,
      collectNames_skip_failed pre post]

/-- C2: `normalize_name` implements transliteration to ASCII, replacement of
non-letters by spaces, whitespace collapsing with trimming, and
upper-casing; it is total by construction, it returns the empty string on
any input without alphabetic content, and on the two concrete examples it
returns `"JOSE A"` and `"ANA MARIA"`. -/
theorem claim_C2_normalize_name_behavior :
    (∀ s : String, (∀ c ∈ s.data, pyIsAlpha c = false) → normalize_name s = "") ∧
    normalize_name "José Á." = "JOSE A" ∧
    normalize_name "  ana-maria!!  " = "ANA MARIA" := by
  refine ⟨?_, by decide, by decide⟩
  intro s h
  unfold normalize_name
  rw [normList_nil_of_no_alpha h]

theorem claim_C2_witness :
    (∀ c ∈ ("128 - 723 !!".data), pyIsAlpha c = false) ∧
    normalize_name "128 - 723 !!" = "" :=
  ⟨by decide, claim_C2_normalize_name_behavior.1 "128 - 723 !!" (by decide)⟩

/-- C3: normalization is idempotent: normalizing an already-normalized string
yields the same string, for every input string. -/
theorem claim_C3_normalize_idempotent (s : String) :
    normalize_name (normalize_name s) = normalize_name s := by
  unfold normalize_name
  exact congrArg String.mk (normList_idem s.data)

/-- C4: every name in the set extracted from the PDF has at least two
whitespace-separated tokens; concretely, of the two OCR lines `"MARIA"` and
`"MARIA LOPEZ"` only the latter contributes an element. -/
theorem claim_C4_two_token_filter :
    (∀ (pdfE : Bool) (conv : ConvOutcome) (names : List String),
      extract_names pdfE conv = Except.ok names → ∀ n ∈ names, 2 ≤ tokenCount n) ∧
    extract_names true (ConvOutcome.pages [PageOcr.ok "MARIA\nMARIA LOPEZ"]) =
      Except.ok ["MARIA LOPEZ"] := by
  refine ⟨?_, by rfl⟩
  intro pdfE conv names h n hn
  cases pdfE with
  | false => exact absurd h (by simp [extract_names])
  | true =>
    cases conv with
    | pdfInfoNotInstalled => exact absurd h (by simp [extract_names])
    | otherFailure => exact absurd h (by simp [extract_names])
    | pages ps =>
      have hnames : collectNames ps = names := Except.ok.inj h
      rw [← hnames] at hn
      exact mem_collectNames_token_bound ps n hn

theorem claim_C4_witness :
    extract_names true (ConvOutcome.pages [PageOcr.ok "ANA MARIA\nX"]) =
      Except.ok ["ANA MARIA"] ∧ 2 ≤ tokenCount "ANA MARIA" :=
  ⟨by rfl, claim_C4_two_token_filter.1 true (ConvOutcome.pages [PageOcr.ok "ANA MARIA\nX"])
    ["ANA MARIA"] (by rfl) "ANA MARIA" (by decide)⟩

/-- C6: when the loaded frame lacks the required name column, `validate`
raises the `KeyError` carrying the columns actually present and produces no
output frame. -/
theorem claim_C6_missing_column (names : List String) (df : DataFrame)
    (h : NAME_COLUMN ∉ df.columns) :
    validate names df = Except.error (ValidateError.missingColumn df.columns) ∧
    ∀ out, validate names df ≠ Except.ok out := by
  refine ⟨validate_missing_column names df h, ?_⟩
  intro out hout
  rw [validate_missing_column names df h] at hout
  exact Except.noConfusion hout

theorem claim_C6_witness :
    validate [] ⟨["Name"], [[Cell.str "x"]]⟩ =
      Except.error (ValidateError.missingColumn ["Name"]) :=
  (claim_C6_missing_column [] ⟨["Name"], [[Cell.str "x"]]⟩ (by decide)).1

/-- C7: a missing PDF file and a missing rasterization tool are fatal errors
of `extract_names`, while the failure of the OCR on one page only drops that
page: the run still returns, successfully, the names accumulated from all
the other pages. -/
theorem claim_C7_partial_ocr :
    (∀ conv, extract_names false conv = Except.error PdfExtractionError.pdfNotFound) ∧
    extract_names true ConvOutcome.pdfInfoNotInstalled =
      Except.error PdfExtractionError.popplerMissing ∧
    (∀ pre post, extract_names true (ConvOutcome.pages (pre ++ PageOcr.failed :: post)) =
      Except.ok (collectNames (pre ++ post))) := by
  refine ⟨fun conv => rfl, rfl, ?_⟩
  intro pre post
  show Except.ok (collectNames (pre ++ PageOcr.failed :: post)) = _
  rw [collectNames_skip_failed pre post]

theorem getD_map_lt {α β : Type} (f : α → β) (d : β) (dflt : α) :
    ∀ (l : List α) (i : Nat), i < l.length → (l.map f).getD i d = f (l.getD i dflt)
  | [], i, h => absurd h (by simp)
  | a :: t, 0, _ => rfl
  | a :: t, i + 1, h => getD_map_lt f d dflt t i (Nat.lt_of_succ_lt_succ h)

theorem getLast?_append_singleton {α : Type} (x : α) : ∀ (r : List α),
    (r ++ [x]).getLast? = some x
  | [] => rfl
  | a :: r => by
    rw [List.cons_append]
    exact getLast?_cons_of_getLast? (getLast?_append_singleton x r)

/-- C1: for every row of an aligned roster frame (whose columns do not clash
with the two labels the matcher writes), the boolean flag appended by
`validate` is `true` exactly when the normalized name field of that row is a
member of the extracted name set; the normalization makes the test
case/format-insensitive, as the `"ana maria lopez"` vs `"ANA MARIA LOPEZ"`
witness shows. -/
theorem claim_C1_flag_iff_membership (pdf_names : List String) (df out : DataFrame)
    (ha : df.Aligned) (hmem : NAME_COLUMN ∈ df.columns)
    (hnn : "_NombreNormalizado" ∉ df.columns) (hex : "Existe en SUA" ∉ df.columns)
    (hval : validate pdf_names df = Except.ok out) :
    ∀ i, i < df.rows.length →
      ((out.rows.getD i []).getLast? = some (Cell.bool true) ↔
        normalize_name (pyStr (nameCell df (df.rows.getD i []))) ∈ pdf_names) := by
  rw [validate_eq pdf_names df ha hmem hnn hex] at hval
  have hout := Except.ok.inj hval
  subst hout
  intro i hi
  rw [getD_map_lt _ [] [] df.rows i hi, getLast?_append_singleton]
  simp only [Option.some.injEq, Cell.bool.injEq, decide_eq_true_eq]

theorem claim_C1_witness :
    validate ["ANA MARIA LOPEZ"] ⟨["Nombre Completo"], [[Cell.str "ana maria lopez"]]⟩ =
      Except.ok ⟨["Nombre Completo", "Existe en SUA"],
        [[Cell.str "ana maria lopez", Cell.bool true]]⟩ ∧
    (([[Cell.str "ana maria lopez", Cell.bool true]].getD 0 []).getLast? =
        some (Cell.bool true) ↔
      normalize_name (pyStr (nameCell ⟨["Nombre Completo"], [[Cell.str "ana maria lopez"]]⟩
        ([[Cell.str "ana maria lopez"]].getD 0 []))) ∈ ["ANA MARIA LOPEZ"]) :=
  ⟨by rfl,
    claim_C1_flag_iff_membership ["ANA MARIA LOPEZ"]
      ⟨["Nombre Completo"], [[Cell.str "ana maria lopez"]]⟩
      ⟨["Nombre Completo", "Existe en SUA"],
        [[Cell.str "ana maria lopez", Cell.bool true]]⟩
      (by decide) (by decide) (by decide) (by decide) (by rfl) 0 (by decide)⟩

/-- C5 counterexample: on an input frame that already contains a column
labelled `Existe en SUA`, the matcher overwrites that column in place (pandas
column assignment) instead of appending a new one: the output has the same
columns as the input, not the input's columns plus one, and the original
column's value `Cell.str "orig"` has been replaced. -/
theorem claim_C5_counterexample :
    validate [] ⟨["Nombre Completo", "Existe en SUA"], [[Cell.str "x", Cell.str "orig"]]⟩ =
      Except.ok ⟨["Nombre Completo", "Existe en SUA"], [[Cell.str "x", Cell.bool false]]⟩ ∧
    (["Nombre Completo", "Existe en SUA"] : List String) ≠
      ["Nombre Completo", "Existe en SUA"] ++ ["Existe en SUA"] ∧
    ([[Cell.str "x", Cell.bool false]].getD 0 []).getD 1 Cell.nan ≠
      ([[Cell.str "x", Cell.str "orig"]].getD 0 []).getD 1 Cell.nan := by
  refine ⟨by rfl, by decide, by decide⟩

/-- C5 (amended): for every aligned input frame that has the name column and
does not already contain a column labelled `Existe en SUA` or
`_NombreNormalizado`, the output frame is exactly the input columns plus the
one boolean column, every original cell unchanged, and a row whose
normalized name is not in the name set receives the flag `false`. -/
theorem claim_C5_frame_effect (pdf_names : List String) (df : DataFrame)
    (ha : df.Aligned) (hmem : NAME_COLUMN ∈ df.columns)
    (hnn : "_NombreNormalizado" ∉ df.columns) (hex : "Existe en SUA" ∉ df.columns) :
    validate pdf_names df = Except.ok
      { columns := df.columns ++ ["Existe en SUA"],
        rows := df.rows.map (fun r => r ++
          [Cell.bool (decide (normalize_name (pyStr (nameCell df r)) ∈ pdf_names))]) } ∧
    (∀ r ∈ df.rows, normalize_name (pyStr (nameCell df r)) ∉ pdf_names →
      Cell.bool (decide (normalize_name (pyStr (nameCell df r)) ∈ pdf_names)) =
        Cell.bool false) := by
  refine ⟨validate_eq pdf_names df ha hmem hnn hex, ?_⟩
  intro r _ hr
  rw [decide_eq_false hr]

theorem claim_C5_witness :
    validate [] ⟨["Nombre Completo"], [[Cell.str "pedro gomez"]]⟩ =
      Except.ok ⟨["Nombre Completo", "Existe en SUA"],
        [[Cell.str "pedro gomez", Cell.bool false]]⟩ :=
  (claim_C5_frame_effect [] ⟨["Nombre Completo"], [[Cell.str "pedro gomez"]]⟩
    (by decide) (by decide) (by decide) (by decide)).1

/-- C8: the process exit status is 0 on a fully successful run, 1 on every
expected validation/configuration error (bad file extension, missing PDF,
missing rasterizer, missing spreadsheet, missing name column), and 2 on any
unexpected internal error (unreadable spreadsheet content, failed output
write). -/
theorem claim_C8_exit_codes (args : Args) (w : World) :
    (lowerEndsWith args.pdf ".pdf" = false → mainRun args w = (1, none)) ∧
    (lowerEndsWith args.pdf ".pdf" = true → lowerEndsWith args.excel ".xlsx" = false →
      mainRun args w = (1, none)) ∧
    (lowerEndsWith args.pdf ".pdf" = true → lowerEndsWith args.excel ".xlsx" = true →
      ∀ e, extract_names w.pdfExists w.conv = Except.error e →
        mainRun args w = (1, none)) ∧
    (lowerEndsWith args.pdf ".pdf" = true → lowerEndsWith args.excel ".xlsx" = true →
      ∀ ns, extract_names w.pdfExists w.conv = Except.ok ns →
        w.excelExists = false → mainRun args w = (1, none)) ∧
    (lowerEndsWith args.pdf ".pdf" = true → lowerEndsWith args.excel ".xlsx" = true →
      ∀ ns, extract_names w.pdfExists w.conv = Except.ok ns →
        w.excelExists = true → w.excelRead = none → mainRun args w = (2, none)) ∧
    (lowerEndsWith args.pdf ".pdf" = true → lowerEndsWith args.excel ".xlsx" = true →
      ∀ ns, extract_names w.pdfExists w.conv = Except.ok ns →
        w.excelExists = true → ∀ df, w.excelRead = some df →
          ∀ err, validate ns df = Except.error err → mainRun args w = (1, none)) ∧
    (lowerEndsWith args.pdf ".pdf" = true → lowerEndsWith args.excel ".xlsx" = true →
      ∀ ns, extract_names w.pdfExists w.conv = Except.ok ns →
        w.excelExists = true → ∀ df, w.excelRead = some df →
          ∀ out, validate ns df = Except.ok out → w.writeOk = false →
            mainRun args w = (2, none)) ∧
    (lowerEndsWith args.pdf ".pdf" = true → lowerEndsWith args.excel ".xlsx" = true →
      ∀ ns, extract_names w.pdfExists w.conv = Except.ok ns →
        w.excelExists = true → ∀ df, w.excelRead = some df →
          ∀ out, validate ns df = Except.ok out → w.writeOk = true →
            mainRun args w = (0, some out)) := by
  refine ⟨?_, ?_, ?_, ?_, ?_, ?_, ?_, ?_⟩
  · intro h1
    simp [mainRun, h1]
  · intro h1 h2
    simp [mainRun, h1, h2]
  · intro h1 h2 e he
    simp [mainRun, h1, h2, he]
  · intro h1 h2 ns hns hexi
    simp [mainRun, h1, h2, hns, hexi]
  · intro h1 h2 ns hns hexi hread
    simp [mainRun, h1, h2, hns, hexi, hread]
  · intro h1 h2 ns hns hexi df hdf err herr
    simp [mainRun, h1, h2, hns, hexi, hdf, herr]
  · intro h1 h2 ns hns hexi df hdf out hout hw
    simp [mainRun, h1, h2, hns, hexi, hdf, hout, hw]
  · intro h1 h2 ns hns hexi df hdf out hout hw
    simp [mainRun, h1, h2, hns, hexi, hdf, hout, hw]

theorem claim_C8_witness :
    mainRun ⟨"a.txt", "b.xlsx", false, none, 300, none⟩
      ⟨true, ConvOutcome.pages [], true, none, true⟩ = (1, none) ∧
    mainRun ⟨"a.pdf", "b.txt", false, none, 300, none⟩
      ⟨true, ConvOutcome.pages [], true, none, true⟩ = (1, none) ∧
    mainRun ⟨"a.pdf", "b.xlsx", false, none, 300, none⟩
      ⟨false, ConvOutcome.pages [], true, none, true⟩ = (1, none) ∧
    mainRun ⟨"a.pdf", "b.xlsx", false, none, 300, none⟩
      ⟨true, ConvOutcome.pages [], false, none, true⟩ = (1, none) ∧
    mainRun ⟨"a.pdf", "b.xlsx", false, none, 300, none⟩
      ⟨true, ConvOutcome.pages [], true, none, true⟩ = (2, none) ∧
    mainRun ⟨"a.pdf", "b.xlsx", false, none, 300, none⟩
      ⟨true, ConvOutcome.pages [], true, some ⟨["Name"], [[Cell.str "x"]]⟩, true⟩ =
        (1, none) ∧
    mainRun ⟨"a.pdf", "b.xlsx", false, none, 300, none⟩
      ⟨true, ConvOutcome.pages [], true,
        some ⟨["Nombre Completo"], [[Cell.str "x"]]⟩, false⟩ = (2, none) ∧
    mainRun ⟨"a.pdf", "b.xlsx", false, none, 300, none⟩
      ⟨true, ConvOutcome.pages [], true,
        some ⟨["Nombre Completo"], [[Cell.str "x"]]⟩, true⟩ =
      (0, some ⟨["Nombre Completo", "Existe en SUA"],
        [[Cell.str "x", Cell.bool false]]⟩) :=
  ⟨(claim_C8_exit_codes _ _).1 (by rfl),
   (claim_C8_exit_codes _ _).2.1 (by rfl) (by rfl),
   (claim_C8_exit_codes _ _).2.2.1 (by rfl) (by rfl)
     PdfExtractionError.pdfNotFound (by rfl),
   (claim_C8_exit_codes _ _).2.2.2.1 (by rfl) (by rfl) [] (by rfl) (by rfl),
   (claim_C8_exit_codes _ _).2.2.2.2.1 (by rfl) (by rfl) [] (by rfl) (by rfl) (by rfl),
   (claim_C8_exit_codes _ _).2.2.2.2.2.1 (by rfl) (by rfl) [] (by rfl) (by rfl)
     ⟨["Name"], [[Cell.str "x"]]⟩ (by rfl)
     (ValidateError.missingColumn ["Name"]) (by rfl),
   (claim_C8_exit_codes _ _).2.2.2.2.2.2.1 (by rfl) (by rfl) [] (by rfl) (by rfl)
     ⟨["Nombre Completo"], [[Cell.str "x"]]⟩ (by rfl)
     ⟨["Nombre Completo", "Existe en SUA"], [[Cell.str "x", Cell.bool false]]⟩
     (by rfl) (by rfl),
   (claim_C8_exit_codes _ _).2.2.2.2.2.2.2 (by rfl) (by rfl) [] (by rfl) (by rfl)
     ⟨["Nombre Completo"], [[Cell.str "x"]]⟩ (by rfl)
     ⟨["Nombre Completo", "Existe en SUA"], [[Cell.str "x", Cell.bool false]]⟩
     (by rfl) (by rfl)⟩

/-- C9: the `--pages` option is accepted by the argument parser (it is a
field of `Args`) but never read: two runs differing only in the value of
`pages` do the same work on the same world — in particular the extractor
consumes every page of the rasterized document in both — and produce the
same exit code and the same output frame. -/
theorem claim_C9_pages_ignored (args : Args) (w : World) (p1 p2 : Option String) :
    mainRun { args with pages := p1 } w = mainRun { args with pages := p2 } w := rfl

/-- C10: a missing name cell is stringified by `.astype(str)` to `"nan"`,
which normalizes to the single-token `"NAN"`; a single token can never be in
the extracted name set, so such a row always receives the flag `false` (and
the matcher never fails on it — `validate` still returns a frame). -/
theorem claim_C10_nan_row_false :
    pyStr Cell.nan = "nan" ∧
    normalize_name "nan" = "NAN" ∧
    (∀ ps names, extract_names true (ConvOutcome.pages ps) = Except.ok names →
      "NAN" ∉ names) ∧
    (∀ ps names df out, df.Aligned → NAME_COLUMN ∈ df.columns →
      "_NombreNormalizado" ∉ df.columns → "Existe en SUA" ∉ df.columns →
      extract_names true (ConvOutcome.pages ps) = Except.ok names →
      validate names df = Except.ok out →
      ∀ i, i < df.rows.length → nameCell df (df.rows.getD i []) = Cell.nan →
        (out.rows.getD i []).getLast? = some (Cell.bool false)) := by
  have hnotin : ∀ ps names,
      extract_names true (ConvOutcome.pages ps) = Except.ok names → "NAN" ∉ names := by
    intro ps names h hmem
    have hnames : collectNames ps = names := Except.ok.inj h
    rw [← hnames] at hmem
    have hbound := mem_collectNames_token_bound ps "NAN" hmem
    have hone : tokenCount "NAN" = 1 := by decide
    omega
  refine ⟨rfl, by decide, hnotin, ?_⟩
  intro ps names df out ha hmem hnn hex hns hval i hi hcell
  rw [validate_eq names df ha hmem hnn hex] at hval
  have hout := Except.ok.inj hval
  subst hout
  rw [getD_map_lt _ [] [] df.rows i hi, getLast?_append_singleton, hcell]
  have hnan : normalize_name (pyStr Cell.nan) = "NAN" := by decide
  rw [hnan, decide_eq_false (hnotin ps names hns)]

theorem claim_C10_witness :
    ([[Cell.nan, Cell.bool false]].getD 0 []).getLast? = some (Cell.bool false) := by
  have h := claim_C10_nan_row_false.2.2.2 [PageOcr.ok "ANA MARIA\nZZ"] ["ANA MARIA"]
    ⟨["Nombre Completo"], [[Cell.nan]]⟩
    ⟨["Nombre Completo", "Existe en SUA"], [[Cell.nan, Cell.bool false]]⟩
    (by decide) (by decide) (by decide) (by decide) (by rfl) (by rfl) 0 (by decide) (by rfl)
  exact h
